import Mathlib

/-!
Verification of the File abstraction exercised by `TestFile.cpp`.

The repository contains only the test harness; the `File` class itself
(`File.h`) is not among the sources. The definitions below therefore model
the File abstraction from the specification document, and the theorems settle
the specification's testable properties against that model.
-/

set_option autoImplicit false

namespace FileModel

/-- Modelled from the spec: a byte of file content. The missing `File` class
reads and writes raw bytes; we model a byte as a natural number. -/
abbrev Byte := Nat

/-- Modelled from the spec: the bitwise-composable open-mode flag set `Read`,
`Write`, `SharedRead`, `SequentialScan`, `RandomAccess` (spec section 6),
represented as a set of independently togglable capabilities as the design
notes direct (spec section 9). -/
structure FileFlags where
  read : Bool := false
  write : Bool := false
  sharedRead : Bool := false
  sequentialScan : Bool := false
  randomAccess : Bool := false
deriving DecidableEq

/-- Modelled from the spec: the `File::Times` record of three timestamps
(creation, last-write, last-access), each a wall-clock value comparable for
equality and ordering (spec section 6). -/
structure Times where
  creationTime : Nat
  lastWriteTime : Nat
  lastAccessTime : Nat
deriving DecidableEq

/-- Modelled from the spec: a platform path: its segments plus a flag recording
whether the spelling ends in a separator; a trailing path separator denotes a
directory target (spec section 6). -/
structure FPath where
  segs : List String
  isDir : Bool
deriving DecidableEq

/-- Modelled from the spec: what the filesystem stores at a name: a regular
file with byte contents, or a directory (spec section 4, Create). -/
inductive EntryData where
  | file (contents : List Byte)
  | dir
deriving DecidableEq

/-- Modelled from the spec: a filesystem entry: its data together with its
creation, last-write and last-access times (spec section 4, GetFileTimes). -/
structure Entry where
  data : EntryData
  times : Times
deriving DecidableEq

/-- Modelled from the spec: the filesystem collaborator (spec section 6), an
association list from path segments to entries. -/
abbrev FS := List (List String × Entry)

/-- Look up the entry stored at key `k`. -/
def FS.lookup : FS → List String → Option Entry
  | [], _ => none
  | kv :: rest, k => if kv.1 = k then some kv.2 else FS.lookup rest k

/-- Remove the binding for key `k`, if any. -/
def FS.eraseKey : FS → List String → FS
  | [], _ => []
  | kv :: rest, k =>
    if kv.1 = k then FS.eraseKey rest k else kv :: FS.eraseKey rest k

/-- Bind key `k` to entry `e`, replacing any previous binding. -/
def FS.insertEntry (fs : FS) (k : List String) (e : Entry) : FS :=
  (k, e) :: fs.eraseKey k

/-- Initial-segment test on path segments: `startsWith k l` holds when the
segment list `k` is an initial segment of `l`. -/
def startsWith : List String → List String → Bool
  | [], _ => true
  | _ :: _, [] => false
  | a :: as, b :: bs => if a = b then startsWith as bs else false

/-- Remove key `k` and every key below it (the subtree rooted at `k`). -/
def FS.removeSubtree : FS → List String → FS
  | [], _ => []
  | kv :: rest, k =>
    if startsWith k kv.1 then FS.removeSubtree rest k
    else kv :: FS.removeSubtree rest k

theorem FS.lookup_eraseKey (fs : FS) (k k' : List String) :
    (fs.eraseKey k).lookup k' = if k' = k then none else fs.lookup k' := by
  induction fs with
  | nil => simp [FS.eraseKey, FS.lookup]
  | cons kv rest ih =>
    by_cases h1 : kv.1 = k <;> by_cases h2 : kv.1 = k' <;>
      simp_all [FS.eraseKey, FS.lookup]

theorem FS.lookup_insertEntry (fs : FS) (k k' : List String) (e : Entry) :
    (fs.insertEntry k e).lookup k' = if k' = k then some e else fs.lookup k' := by
  simp only [FS.insertEntry, FS.lookup, FS.lookup_eraseKey]
  by_cases h : k' = k
  · simp [h]
  · simp [h, Ne.symm h]

theorem startsWith_refl (l : List String) : startsWith l l = true := by
  induction l with
  | nil => rfl
  | cons a as ih => simp [startsWith, ih]

theorem startsWith_length {k l : List String} (h : startsWith k l = true) :
    k.length ≤ l.length := by
  induction k generalizing l with
  | nil => simp
  | cons a as ih =>
    cases l with
    | nil => simp [startsWith] at h
    | cons b bs =>
      simp only [startsWith] at h
      split at h
      · simpa using Nat.succ_le_succ (ih h)
      · exact absurd h (by simp)

theorem startsWith_take (l : List String) {m n : Nat} (h : m ≤ n) :
    startsWith (l.take m) (l.take n) = true := by
  induction l generalizing m n with
  | nil => simp [startsWith]
  | cons a as ih =>
    cases m with
    | zero => simp [startsWith]
    | succ m =>
      cases n with
      | zero => omega
      | succ n =>
        simp only [List.take_succ_cons, startsWith, if_pos rfl]
        exact ih (Nat.le_of_succ_le_succ h)

theorem FS.lookup_removeSubtree (fs : FS) (k k' : List String) :
    (fs.removeSubtree k).lookup k' =
      if startsWith k k' = true then none else fs.lookup k' := by
  induction fs with
  | nil => simp [FS.removeSubtree, FS.lookup]
  | cons kv rest ih =>
    by_cases h1 : startsWith k kv.1 = true <;> by_cases h2 : kv.1 = k' <;>
      simp_all [FS.removeSubtree, FS.lookup]

/-- Modelled from the spec: the world the handle acts on: the filesystem plus
a clock that advances at every operation touching the OS; file times are
point-in-time OS metadata snapshots, not cached by the handle (spec
section 3, invariants). -/
structure Sys where
  fs : FS
  clock : Nat
deriving DecidableEq

/-- Modelled from the spec: the state of the missing `File` class: the bound
path, whether a native resource is held, the capability set it was most
recently opened with (retained only while open), and the read/write cursor
(spec section 3, data model). -/
structure File where
  path : Option FPath
  opened : Bool
  flags : FileFlags
  pos : Nat
deriving DecidableEq

/-- Modelled from the spec: a default-constructed handle is unbound, closed,
zero length (spec section 4, construction). -/
def File.init : File := ⟨none, false, {}, 0⟩

/-- Modelled from the spec: `IsOpen()` is true iff a native resource is
currently held (spec section 3, invariants). -/
def File.IsOpen (f : File) : Bool := f.opened

/-- Modelled from the spec: `SetFile` rebinds the handle to a path without
opening it; it does not error if the path does not exist (spec section 4,
construction / binding). -/
def File.SetFile (f : File) (p : FPath) : File := { f with path := some p }

/-- Modelled from the spec: `Close()` releases the native resource; subsequent
operations behave as on a never-opened handle; idempotent (spec section 4).
The capability set is retained only while open (spec section 3). -/
def File.Close (f : File) : File := { f with opened := false, flags := {}, pos := 0 }

/-- Modelled from the spec: `GetLength()` returns the current size of the open
resource, or of the bound path if queryable while closed; 0 for a nonexistent
or empty target; directories report length 0 (spec sections 4 and 3). -/
def File.GetLength (f : File) (s : Sys) : Nat :=
  match f.path with
  | none => 0
  | some p =>
    match s.fs.lookup p.segs with
    | some e =>
      match e.data with
      | .file c => c.length
      | .dir => 0
    | none => 0

/-- Modelled from the spec: `GetFileTimes` populates creation, last-write and
last-access times from the current on-disk metadata; fails if the target does
not exist; no open is required (spec sections 3 and 4). -/
def File.GetFileTimes (f : File) (s : Sys) : Option Times :=
  match f.path with
  | none => none
  | some p =>
    match s.fs.lookup p.segs with
    | some e => some e.times
    | none => none

/-- Modelled from the spec: `Open(flags)` fails if the target does not exist;
on success the handle holds the resource with the given capability set and the
cursor at 0; opening for reading refreshes the target's last-access time, a
read-triggering operation (spec sections 4 and 8). -/
def File.Open (f : File) (fl : FileFlags) (s : Sys) : Bool × File × Sys :=
  match f.path with
  | none => (false, f, s)
  | some p =>
    match s.fs.lookup p.segs with
    | none => (false, f, s)
    | some e =>
      let now := s.clock + 1
      let e' := if fl.read then { e with times := { e.times with lastAccessTime := now } } else e
      (true, { f with opened := true, flags := fl, pos := 0 },
        { fs := s.fs.insertEntry p.segs e', clock := now })

/-- The proper ancestors of a path's segment list, shortest first: for
`[a, b, c]` these are `[a]` and `[a, b]`. -/
def ancestors (l : List String) : List (List String) :=
  (List.range (l.length - 1)).map (fun i => l.take (i + 1))

/-- Create a directory at key `k` stamped with times `t`, unless an entry
already exists there. -/
def addDirIfAbsent (fs : FS) (k : List String) (t : Times) : FS :=
  match fs.lookup k with
  | some _ => fs
  | none => fs.insertEntry k ⟨.dir, t⟩

/-- Modelled from the spec: `Create(flags)` creates the target if absent,
including any required intermediate directories for multi-segment paths; a
path ending in a separator denotes a directory target; an existing file target
is truncated when the flags permit write; on success the handle is open with
the cursor at 0 (spec section 4, Create). -/
def File.Create (f : File) (fl : FileFlags) (s : Sys) : Bool × File × Sys :=
  match f.path with
  | none => (false, f, s)
  | some p =>
    if p.segs = [] then (false, f, s)
    else
      let now := s.clock + 1
      let t : Times := ⟨now, now, now⟩
      let fs1 := (ancestors p.segs).foldl (fun a k => addDirIfAbsent a k t) s.fs
      let fs2 :=
        if p.isDir then addDirIfAbsent fs1 p.segs t
        else if fl.write then fs1.insertEntry p.segs ⟨.file [], t⟩
        else
          match fs1.lookup p.segs with
          | some _ => fs1
          | none => fs1.insertEntry p.segs ⟨.file [], t⟩
      (true, { f with opened := true, flags := fl, pos := 0 }, { fs := fs2, clock := now })

/-- Overwrite the bytes of `c` starting at `pos` with `buf`, zero-filling any
gap and extending the contents when writing past the current end. -/
def writeAt (c : List Byte) (pos : Nat) (buf : List Byte) : List Byte :=
  c.take pos ++ List.replicate (pos - c.length) 0 ++ buf ++ c.drop (pos + buf.length)

/-- Modelled from the spec: `Write(buffer, byteCount)` fails if the handle was
not opened with `Write` capability, without corrupting or partially writing;
on success it advances the cursor by the byte count, extends the file when
writing past the end, and refreshes the last-write time (spec section 4). -/
def File.Write (f : File) (buf : List Byte) (s : Sys) : Bool × File × Sys :=
  if f.opened && f.flags.write then
    match f.path with
    | none => (false, f, s)
    | some p =>
      match s.fs.lookup p.segs with
      | some e =>
        match e.data with
        | .file c =>
          let now := s.clock + 1
          let e' : Entry := ⟨.file (writeAt c f.pos buf), { e.times with lastWriteTime := now }⟩
          (true, { f with pos := f.pos + buf.length },
            { fs := s.fs.insertEntry p.segs e', clock := now })
        | .dir => (false, f, s)
      | none => (false, f, s)
  else (false, f, s)

/-- Modelled from the spec: the exact-count `Read(buffer, requestedBytes)`
variant: requires `Read` capability and fails if fewer bytes than requested
remain before end-of-file; on success the cursor advances by exactly the bytes
read (spec section 4, Read). -/
def File.Read (f : File) (n : Nat) (s : Sys) : Option (List Byte) × File × Sys :=
  if f.opened && f.flags.read then
    match f.path with
    | none => (none, f, s)
    | some p =>
      match s.fs.lookup p.segs with
      | some e =>
        match e.data with
        | .file c =>
          if f.pos + n ≤ c.length then
            (some ((c.drop f.pos).take n), { f with pos := f.pos + n }, s)
          else (none, f, s)
        | .dir => (none, f, s)
      | none => (none, f, s)
  else (none, f, s)

/-- Modelled from the spec: the actual-bytes-read `Read(buffer, requested,
bytesRead)` variant: returns the bytes actually read (0 at end-of-file, fewer
than requested is not an error) and advances the cursor by exactly that count
(spec section 4, Read). -/
def File.ReadUpTo (f : File) (n : Nat) (s : Sys) : Option (List Byte) × File × Sys :=
  if f.opened && f.flags.read then
    match f.path with
    | none => (none, f, s)
    | some p =>
      match s.fs.lookup p.segs with
      | some e =>
        match e.data with
        | .file c =>
          let bytes := (c.drop f.pos).take n
          (some bytes, { f with pos := f.pos + bytes.length }, s)
        | .dir => (none, f, s)
      | none => (none, f, s)
  else (none, f, s)

/-- Modelled from the spec: `SetPos(offset)` repositions the cursor to an
absolute byte offset, with no other effect (spec section 4, SetPos). -/
def File.SetPos (f : File) (off : Nat) : Bool × File :=
  if f.opened then (true, { f with pos := off }) else (false, f)

/-- Modelled from the spec: `Flush()` forces buffered writes to stable
storage; a no-op on the observable state (spec section 4, Flush). -/
def File.Flush (f : File) (s : Sys) : File × Sys := (f, s)

/-- Modelled from the spec: `Delete()` closes any currently open resource on
this handle first, then removes the target, recursively for directories,
failing when the target does not exist (spec section 4, Delete). -/
def File.Delete (f : File) (s : Sys) : Bool × File × Sys :=
  let f' := f.Close
  match f.path with
  | none => (false, f', s)
  | some p =>
    match s.fs.lookup p.segs with
    | none => (false, f', s)
    | some _ => (true, f', { s with fs := s.fs.removeSubtree p.segs })

/-- Modelled from the spec: the static `ReadEntireFile(path, outBuffer)`
convenience operation: opens the path read-only with shared read, reads the
full contents, closes; fails if the path cannot be opened and never leaves a
dangling open resource (spec section 4, ReadEntireFile). -/
def File.ReadEntireFile (p : FPath) (s : Sys) : Option (List Byte) × File × Sys :=
  let f0 := File.init.SetFile p
  let step := f0.Open { read := true, sharedRead := true } s
  if step.1 then
    let f1 := step.2.1
    let s1 := step.2.2
    let r := f1.Read (f1.GetLength s1) s1
    (r.1, r.2.1.Close, r.2.2)
  else (none, step.2.1.Close, step.2.2)

/-- Well-formed times relative to the current clock: all three timestamps are
nonzero and no timestamp lies in the future. -/
abbrev TimesWF (t : Times) (clock : Nat) : Prop :=
  0 < t.creationTime ∧ t.creationTime ≤ clock ∧
  0 < t.lastWriteTime ∧ t.lastWriteTime ≤ clock ∧
  0 < t.lastAccessTime ∧ t.lastAccessTime ≤ clock

/-- A well-formed world: every entry's recorded times are nonzero and no
recorded time lies in the future of the clock. -/
abbrev Sys.WF (s : Sys) : Prop :=
  ∀ kv ∈ s.fs, TimesWF kv.2.times s.clock

theorem FS.mem_of_lookup_eq_some {fs : FS} {k : List String} {e : Entry}
    (h : fs.lookup k = some e) : (k, e) ∈ fs := by
  induction fs with
  | nil => simp [FS.lookup] at h
  | cons kv rest ih =>
    simp only [FS.lookup] at h
    split at h
    · rename_i heq
      obtain rfl : kv.2 = e := by simpa using h
      exact heq ▸ List.mem_cons_self kv rest
    · exact List.mem_cons_of_mem kv (ih h)

theorem FS.mem_of_mem_eraseKey {fs : FS} {k : List String} {kv : List String × Entry}
    (h : kv ∈ fs.eraseKey k) : kv ∈ fs := by
  induction fs with
  | nil => simp [FS.eraseKey] at h
  | cons kv0 rest ih =>
    simp only [FS.eraseKey] at h
    split at h
    · exact List.mem_cons_of_mem kv0 (ih h)
    · rcases List.mem_cons.mp h with rfl | hmem
      · exact List.mem_cons_self _ _
      · exact List.mem_cons_of_mem _ (ih hmem)

theorem lookup_addDirIfAbsent_ne (fs : FS) (k0 k : List String) (t : Times)
    (h : k ≠ k0) : (addDirIfAbsent fs k0 t).lookup k = fs.lookup k := by
  unfold addDirIfAbsent
  cases hl : fs.lookup k0 with
  | some e => rfl
  | none => rw [FS.lookup_insertEntry, if_neg h]

theorem lookup_foldl_addDir_of_not_mem (ks : List (List String)) (fs : FS)
    (t : Times) (k : List String) (hk : k ∉ ks) :
    (ks.foldl (fun a b => addDirIfAbsent a b t) fs).lookup k = fs.lookup k := by
  induction ks generalizing fs with
  | nil => rfl
  | cons k0 ks ih =>
    rw [List.foldl_cons, ih _ (fun hm => hk (List.mem_cons_of_mem k0 hm)),
      lookup_addDirIfAbsent_ne _ _ _ _
        (fun hh => hk (by rw [hh]; exact List.mem_cons_self k0 ks))]

theorem lookup_foldl_addDir_of_mem (ks : List (List String)) (fs : FS)
    (t : Times) (k : List String) (hk : k ∈ ks) (hnd : ks.Nodup)
    (h0 : fs.lookup k = none) :
    (ks.foldl (fun a b => addDirIfAbsent a b t) fs).lookup k = some ⟨.dir, t⟩ := by
  induction ks generalizing fs with
  | nil => simp at hk
  | cons k0 ks ih =>
    rw [List.foldl_cons]
    rcases List.mem_cons.mp hk with rfl | hmem
    · rw [lookup_foldl_addDir_of_not_mem _ _ _ _ (List.nodup_cons.mp hnd).1]
      unfold addDirIfAbsent
      rw [h0, FS.lookup_insertEntry, if_pos rfl]
    · have hne : k ≠ k0 := by
        rintro rfl
        exact (List.nodup_cons.mp hnd).1 hmem
      exact ih _ hmem (List.nodup_cons.mp hnd).2
        (by rw [lookup_addDirIfAbsent_ne _ _ _ _ hne]; exact h0)

theorem mem_foldl_addDir {ks : List (List String)} {fs : FS} {t : Times}
    {kv : List String × Entry}
    (h : kv ∈ ks.foldl (fun a b => addDirIfAbsent a b t) fs) :
    kv ∈ fs ∨ kv.1 ∈ ks := by
  induction ks generalizing fs with
  | nil => exact Or.inl h
  | cons k0 ks ih =>
    rw [List.foldl_cons] at h
    rcases ih h with hin | hin
    · unfold addDirIfAbsent at hin
      split at hin
      · exact Or.inl hin
      · rcases List.mem_cons.mp hin with rfl | hmem
        · exact Or.inr (List.mem_cons_self k0 ks)
        · exact Or.inl (FS.mem_of_mem_eraseKey hmem)
    · exact Or.inr (List.mem_cons_of_mem k0 hin)

theorem mem_ancestors {l : List String} {k : List String} :
    k ∈ ancestors l ↔ ∃ i, i < l.length - 1 ∧ l.take (i + 1) = k := by
  simp [ancestors]

theorem length_of_mem_ancestors {l k : List String} (h : k ∈ ancestors l) :
    k.length < l.length := by
  obtain ⟨i, hi, rfl⟩ := mem_ancestors.mp h
  rw [List.length_take]
  omega

theorem ancestors_nodup (l : List String) : (ancestors l).Nodup := by
  apply List.Nodup.map_on ?_ (List.nodup_range _)
  intro i hi j hj hij
  have h1 : (l.take (i + 1)).length = (l.take (j + 1)).length := by rw [hij]
  simp only [List.length_take] at h1
  simp only [List.mem_range] at hi hj
  omega

theorem writeAt_nil (buf : List Byte) : writeAt [] 0 buf = buf := by
  simp [writeAt]

/-- Claim C9: a freshly default-constructed handle reports IsOpen false and
GetLength 0; after Close, IsOpen is false again; a second Close does not fail
or alter state, i.e. Close is idempotent. -/
theorem claim9_fresh_handle_and_close_idempotent (s : Sys) (f : File) :
    File.init.IsOpen = false ∧ File.init.GetLength s = 0 ∧
    f.Close.IsOpen = false ∧ f.Close.Close = f.Close :=
  ⟨rfl, rfl, rfl, rfl⟩

/-- Claim C2: Write on a handle that does not hold the Write capability (in
particular one opened with only Read) fails and leaves the handle, the
filesystem and the clock unmodified. -/
theorem claim2_write_without_capability_fails (f : File) (buf : List Byte)
    (s : Sys) (h : f.flags.write = false) :
    f.Write buf s = (false, f, s) := by
  simp [File.Write, h]

/-- Witness for claim C2: a handle on an existing file opened with only Read;
Write fails and changes nothing. -/
theorem claim2_witness :
    File.Write
        ⟨some ⟨["TestFile.cpp"], false⟩, true, { read := true, sharedRead := true }, 0⟩
        [7] ⟨[(["TestFile.cpp"], ⟨.file [1, 2, 3], ⟨1, 1, 1⟩⟩)], 1⟩ =
      (false,
        ⟨some ⟨["TestFile.cpp"], false⟩, true, { read := true, sharedRead := true }, 0⟩,
        ⟨[(["TestFile.cpp"], ⟨.file [1, 2, 3], ⟨1, 1, 1⟩⟩)], 1⟩) :=
  claim2_write_without_capability_fails _ _ _ rfl

/-- Claim C5: with a handle open for reading positioned at end-of-file, the
actual-bytes-read variant succeeds with 0 bytes read and leaves handle and
world fixed, so arbitrarily many repeated calls each succeed with 0 bytes;
the exact-count variant instead fails whenever fewer than the requested bytes
remain, in particular for every positive request at end-of-file. -/
theorem claim5_reads_at_eof (f : File) (s : Sys) (p : FPath) (c : List Byte)
    (t : Times) (hp : f.path = some p) (ho : f.opened = true)
    (hr : f.flags.read = true) (he : s.fs.lookup p.segs = some ⟨.file c, t⟩)
    (heof : c.length ≤ f.pos) :
    (∀ n, f.ReadUpTo n s = (some [], f, s)) ∧
    (∀ n, 0 < n → (f.Read n s).1 = none) := by
  obtain ⟨fp, fo, ffl, fpos⟩ := f
  simp only at hp ho hr heof
  subst hp ho
  constructor
  · intro n
    simp [File.ReadUpTo, hr, he, List.drop_eq_nil_of_le heof]
  · intro n hn
    have hlt : ¬ (fpos + n ≤ c.length) := by omega
    simp [File.Read, hr, he, hlt]

/-- Witness for claim C5: a handle at end-of-file of a two-byte file; the
actual-bytes variant returns 0 bytes and a fixed state, the exact variant
fails. -/
theorem claim5_witness :
    File.ReadUpTo ⟨some ⟨["a"], false⟩, true, { read := true }, 2⟩ 7
        ⟨[(["a"], ⟨.file [5, 6], ⟨1, 1, 1⟩⟩)], 3⟩ =
      (some [], ⟨some ⟨["a"], false⟩, true, { read := true }, 2⟩,
        ⟨[(["a"], ⟨.file [5, 6], ⟨1, 1, 1⟩⟩)], 3⟩) ∧
    (File.Read ⟨some ⟨["a"], false⟩, true, { read := true }, 2⟩ 7
        ⟨[(["a"], ⟨.file [5, 6], ⟨1, 1, 1⟩⟩)], 3⟩).1 = none :=
  ⟨(claim5_reads_at_eof _ _ ⟨["a"], false⟩ [5, 6] ⟨1, 1, 1⟩ rfl rfl rfl
      (by decide) (by decide)).1 7,
    (claim5_reads_at_eof _ _ ⟨["a"], false⟩ [5, 6] ⟨1, 1, 1⟩ rfl rfl rfl
      (by decide) (by decide)).2 7 (by decide)⟩

/-- Claim C1: write-then-read round trip: creating a file with Write
capability, writing any byte buffer, flushing, closing, then reopening with
Read and reading the buffer's length from position 0 yields exactly the bytes
written, for every buffer, so in particular for lengths 0, 1, 1024 and
multi-megabyte sizes. -/
theorem claim1_write_read_roundtrip (s : Sys) (p : FPath) (buf : List Byte)
    (hd : p.isDir = false) (hne : p.segs ≠ []) :
    (let c := (File.init.SetFile p).Create { write := true } s
     let w := c.2.1.Write buf c.2.2
     let fl := w.2.1.Flush w.2.2
     let o := fl.1.Close.Open { read := true } fl.2
     let r := o.2.1.Read buf.length o.2.2
     c.1 = true ∧ w.1 = true ∧ o.1 = true ∧ r.1 = some buf) := by
  simp [File.Create, File.SetFile, File.init, File.Write, File.Flush, File.Open,
    File.Read, File.Close, hne, hd, FS.lookup_insertEntry, writeAt_nil]

/-- Witness for claim C1: the round trip at a three-byte buffer on an empty
filesystem. -/
theorem claim1_witness :
    (let c := (File.init.SetFile ⟨["temp.tmp"], false⟩).Create { write := true } ⟨[], 0⟩
     let w := c.2.1.Write [1, 2, 3] c.2.2
     let fl := w.2.1.Flush w.2.2
     let o := fl.1.Close.Open { read := true } fl.2
     let r := o.2.1.Read [1, 2, 3].length o.2.2
     c.1 = true ∧ w.1 = true ∧ o.1 = true ∧ r.1 = some [1, 2, 3]) :=
  claim1_write_read_roundtrip ⟨[], 0⟩ ⟨["temp.tmp"], false⟩ [1, 2, 3] rfl (by decide)

theorem getLength_after_write_close (s : Sys) (p : FPath) (buf : List Byte)
    (hd : p.isDir = false) (hne : p.segs ≠ []) :
    (let c := (File.init.SetFile p).Create { write := true } s
     let w := c.2.1.Write buf c.2.2
     w.2.1.Close.GetLength w.2.2 = buf.length) := by
  simp [File.Create, File.SetFile, File.init, File.Write, File.Close,
    File.GetLength, hne, hd, FS.lookup_insertEntry, writeAt_nil]

/-- Claim C6 counterexample: the claim's universal clause says every closed
handle reports GetLength 0, but a handle that wrote 1024 bytes to its bound
path and was then closed is closed yet reports 1024. -/
theorem claim6_counterexample :
    (let c := (File.init.SetFile ⟨["temp.tmp"], false⟩).Create { write := true } ⟨[], 0⟩
     let w := c.2.1.Write (List.replicate 1024 7) c.2.2
     let g := w.2.1.Close
     g.IsOpen = false ∧ g.GetLength w.2.2 = 1024 ∧ g.GetLength w.2.2 ≠ 0) := by
  have h := getLength_after_write_close ⟨[], 0⟩ ⟨["temp.tmp"], false⟩
    (List.replicate 1024 7) rfl (by decide)
  rw [List.length_replicate] at h
  exact ⟨rfl, h, by rw [h]; decide⟩

/-- Claim C6 (amended): GetLength on a closed handle reports the size of the
bound path, which remains queryable while closed: a fresh handle, unbound and
never opened, reports 0, while a handle that wrote a buffer to its bound path
and was then closed reports that buffer's length, so 1024 after writing 1024
bytes rather than 0. -/
theorem claim6_getlength_closed_queries_path (s : Sys) (p : FPath)
    (buf : List Byte) (hd : p.isDir = false) (hne : p.segs ≠ []) :
    File.init.GetLength s = 0 ∧
    (let c := (File.init.SetFile p).Create { write := true } s
     let w := c.2.1.Write buf c.2.2
     w.2.1.Close.IsOpen = false ∧ w.2.1.Close.GetLength w.2.2 = buf.length) := by
  refine ⟨rfl, rfl, ?_⟩
  simp [File.Create, File.SetFile, File.init, File.Write, File.Close,
    File.GetLength, hne, hd, FS.lookup_insertEntry, writeAt_nil]

/-- Witness for claim C6 (amended): a two-byte buffer on an empty
filesystem. -/
theorem claim6_witness :
    File.init.GetLength ⟨[], 0⟩ = 0 ∧
    (let c := (File.init.SetFile ⟨["temp.tmp"], false⟩).Create { write := true } ⟨[], 0⟩
     let w := c.2.1.Write [3, 4] c.2.2
     w.2.1.Close.IsOpen = false ∧ w.2.1.Close.GetLength w.2.2 = [3, 4].length) :=
  claim6_getlength_closed_queries_path ⟨[], 0⟩ ⟨["temp.tmp"], false⟩ [3, 4] rfl (by decide)

/-- Claim C10: a handle bound via SetFile to an existing path and never opened
answers GetFileTimes without any open: the handle stays closed, the query
succeeds, and in a well-formed world all three returned timestamps are
nonzero. -/
theorem claim10_times_query_needs_no_open (s : Sys) (p : FPath) (e : Entry)
    (hwf : s.WF) (he : s.fs.lookup p.segs = some e) :
    (File.init.SetFile p).IsOpen = false ∧
    (File.init.SetFile p).GetFileTimes s = some e.times ∧
    0 < e.times.creationTime ∧ 0 < e.times.lastWriteTime ∧
    0 < e.times.lastAccessTime := by
  have ht := hwf _ (FS.mem_of_lookup_eq_some he)
  exact ⟨rfl, by simp [File.GetFileTimes, File.SetFile, File.init, he],
    ht.1, ht.2.2.1, ht.2.2.2.2.1⟩

/-- Witness for claim C10: an unopened handle on a one-entry filesystem. -/
theorem claim10_witness :
    (File.init.SetFile ⟨["a"], false⟩).IsOpen = false ∧
    (File.init.SetFile ⟨["a"], false⟩).GetFileTimes
        ⟨[(["a"], ⟨.file [], ⟨1, 1, 1⟩⟩)], 1⟩ =
      some (⟨.file [], ⟨1, 1, 1⟩⟩ : Entry).times ∧
    0 < (⟨.file [], ⟨1, 1, 1⟩⟩ : Entry).times.creationTime ∧
    0 < (⟨.file [], ⟨1, 1, 1⟩⟩ : Entry).times.lastWriteTime ∧
    0 < (⟨.file [], ⟨1, 1, 1⟩⟩ : Entry).times.lastAccessTime :=
  claim10_times_query_needs_no_open ⟨[(["a"], ⟨.file [], ⟨1, 1, 1⟩⟩)], 1⟩
    ⟨["a"], false⟩ ⟨.file [], ⟨1, 1, 1⟩⟩ (by decide) (by decide)

/-- Claim C3: for an existing target in a well-formed world, Open with Read
and SharedRead followed by GetFileTimes returns a last-access time at least
the last-access time recorded by GetFileTimes before the open, while the
creation and last-write times returned after the open equal those recorded
before it. -/
theorem claim3_open_read_refreshes_only_last_access (s : Sys) (f : File)
    (p : FPath) (e : Entry) (hwf : s.WF) (hp : f.path = some p)
    (he : s.fs.lookup p.segs = some e) :
    (let o := f.Open { read := true, sharedRead := true } s
     f.GetFileTimes s = some e.times ∧ o.1 = true ∧
     o.2.1.GetFileTimes o.2.2 =
       some ⟨e.times.creationTime, e.times.lastWriteTime, s.clock + 1⟩ ∧
     e.times.lastAccessTime ≤ s.clock + 1) := by
  have ht := hwf _ (FS.mem_of_lookup_eq_some he)
  refine ⟨by simp [File.GetFileTimes, hp, he], ?_, ?_, ?_⟩
  · simp [File.Open, hp, he]
  · simp [File.Open, File.GetFileTimes, hp, he, FS.lookup_insertEntry]
  · exact le_trans ht.2.2.2.2.2 (Nat.le_succ _)

/-- Witness for claim C3: opening a one-entry filesystem for shared reading
and comparing the times around the open. -/
theorem claim3_witness :
    (let o := (File.init.SetFile ⟨["a"], false⟩).Open
        { read := true, sharedRead := true } ⟨[(["a"], ⟨.file [], ⟨1, 1, 1⟩⟩)], 1⟩
     (File.init.SetFile ⟨["a"], false⟩).GetFileTimes
         ⟨[(["a"], ⟨.file [], ⟨1, 1, 1⟩⟩)], 1⟩ =
       some (⟨.file [], ⟨1, 1, 1⟩⟩ : Entry).times ∧ o.1 = true ∧
     o.2.1.GetFileTimes o.2.2 =
       some ⟨(⟨.file [], ⟨1, 1, 1⟩⟩ : Entry).times.creationTime,
         (⟨.file [], ⟨1, 1, 1⟩⟩ : Entry).times.lastWriteTime, 1 + 1⟩ ∧
     (⟨.file [], ⟨1, 1, 1⟩⟩ : Entry).times.lastAccessTime ≤ 1 + 1) :=
  claim3_open_read_refreshes_only_last_access ⟨[(["a"], ⟨.file [], ⟨1, 1, 1⟩⟩)], 1⟩
    (File.init.SetFile ⟨["a"], false⟩) ⟨["a"], false⟩ ⟨.file [], ⟨1, 1, 1⟩⟩
    (by decide) rfl (by decide)

/-- Claim C8: ReadEntireFile on a readable file succeeds with a buffer whose
size equals the file's byte length and whose contents equal what a direct
Read of that length returns through a freshly opened handle; and on every
input, in particular when the path cannot be opened, the handle it used ends
closed, so no open resource dangles on any exit path. -/
theorem claim8_read_entire_file (p : FPath) (s : Sys) (c : List Byte)
    (t : Times) (he : s.fs.lookup p.segs = some ⟨.file c, t⟩) :
    (let r := File.ReadEntireFile p s
     let o := (File.init.SetFile p).Open { read := true, sharedRead := true } s
     r.1 = some c ∧ c.length = (File.init.SetFile p).GetLength s ∧
     (o.2.1.Read c.length o.2.2).1 = r.1 ∧ r.2.1.IsOpen = false) ∧
    (∀ q s1, (File.ReadEntireFile q s1).2.1.IsOpen = false) := by
  constructor
  · simp [File.ReadEntireFile, File.Open, File.SetFile, File.init, File.Read,
      File.GetLength, File.Close, File.IsOpen, he, FS.lookup_insertEntry]
  · intro q s1
    simp only [File.ReadEntireFile]
    split <;> rfl

/-- Witness for claim C8: a one-byte file read whole, plus the no-dangling
guarantee at a path that cannot be opened. -/
theorem claim8_witness :
    (let r := File.ReadEntireFile ⟨["a"], false⟩ ⟨[(["a"], ⟨.file [9], ⟨1, 1, 1⟩⟩)], 1⟩
     let o := (File.init.SetFile ⟨["a"], false⟩).Open { read := true, sharedRead := true }
       ⟨[(["a"], ⟨.file [9], ⟨1, 1, 1⟩⟩)], 1⟩
     r.1 = some [9] ∧
     ([9] : List Byte).length = (File.init.SetFile ⟨["a"], false⟩).GetLength
       ⟨[(["a"], ⟨.file [9], ⟨1, 1, 1⟩⟩)], 1⟩ ∧
     (o.2.1.Read ([9] : List Byte).length o.2.2).1 = r.1 ∧ r.2.1.IsOpen = false) ∧
    (File.ReadEntireFile ⟨["missing"], false⟩ ⟨[], 0⟩).2.1.IsOpen = false :=
  ⟨(claim8_read_entire_file ⟨["a"], false⟩ ⟨[(["a"], ⟨.file [9], ⟨1, 1, 1⟩⟩)], 1⟩
      [9] ⟨1, 1, 1⟩ (by decide)).1,
    (claim8_read_entire_file ⟨["a"], false⟩ ⟨[(["a"], ⟨.file [9], ⟨1, 1, 1⟩⟩)], 1⟩
      [9] ⟨1, 1, 1⟩ (by decide)).2 ⟨["missing"], false⟩ ⟨[], 0⟩⟩

/-- Claim C4: Create on a directory target, one whose path ends in a
separator, produces an empty directory and leaves the handle open; after
closing, Open with Read on that directory succeeds, IsOpen is true and
GetLength reports 0. -/
theorem claim4_directory_create_and_open (s : Sys) (p : FPath)
    (hd : p.isDir = true) (hne : p.segs ≠ [])
    (hfresh : ∀ kv ∈ s.fs, startsWith p.segs kv.1 = false) :
    (let c := (File.init.SetFile p).Create { read := true, write := true } s
     let o := c.2.1.Close.Open { read := true } c.2.2
     c.1 = true ∧ c.2.1.IsOpen = true ∧
     c.2.2.fs.lookup p.segs =
       some ⟨.dir, ⟨s.clock + 1, s.clock + 1, s.clock + 1⟩⟩ ∧
     (∀ kv ∈ c.2.2.fs, startsWith p.segs kv.1 = true → kv.1 = p.segs) ∧
     o.1 = true ∧ o.2.1.IsOpen = true ∧ o.2.1.GetLength o.2.2 = 0) := by
  have habs : s.fs.lookup p.segs = none := by
    cases hl : s.fs.lookup p.segs with
    | none => rfl
    | some e =>
      have hsw := hfresh _ (FS.mem_of_lookup_eq_some hl)
      rw [startsWith_refl] at hsw
      exact absurd hsw (by simp)
  have hnm : p.segs ∉ ancestors p.segs := fun hm =>
    absurd (length_of_mem_ancestors hm) (lt_irrefl _)
  have hfs1 : ((ancestors p.segs).foldl
      (fun a k => addDirIfAbsent a k ⟨s.clock + 1, s.clock + 1, s.clock + 1⟩)
      s.fs).lookup p.segs = none := by
    rw [lookup_foldl_addDir_of_not_mem _ _ _ _ hnm]
    exact habs
  simp only [File.Create, File.SetFile, File.init, hd, hne, if_false, ite_true,
    ite_false, if_true]
  set t1 : Times := ⟨s.clock + 1, s.clock + 1, s.clock + 1⟩ with ht1
  set fs1 : FS := (ancestors p.segs).foldl (fun a k => addDirIfAbsent a k t1) s.fs
    with hfs1d
  have hadd : addDirIfAbsent fs1 p.segs t1 = fs1.insertEntry p.segs ⟨.dir, t1⟩ := by
    unfold addDirIfAbsent
    rw [hfs1]
  rw [hadd]
  refine ⟨trivial, rfl, ?_, ?_, ?_, ?_, ?_⟩
  · rw [FS.lookup_insertEntry]
    simp
  · intro kv hm hsw
    simp only [FS.insertEntry] at hm
    rcases List.mem_cons.mp hm with rfl | hm2
    · rfl
    · have hm3 := FS.mem_of_mem_eraseKey hm2
      rw [hfs1d] at hm3
      rcases mem_foldl_addDir hm3 with hin | hin
      · rw [hfresh _ hin] at hsw
        simp at hsw
      · have h1 := length_of_mem_ancestors hin
        have h2 := startsWith_length hsw
        omega
  · simp [File.Close, File.Open, FS.lookup_insertEntry]
  · simp [File.Close, File.Open, File.IsOpen, FS.lookup_insertEntry]
  · simp [File.Close, File.Open, File.GetLength, FS.lookup_insertEntry]

theorem startsWith_eq_false_of_lt {k l : List String} (h : l.length < k.length) :
    startsWith k l = false := by
  cases hh : startsWith k l with
  | false => rfl
  | true => exact absurd (startsWith_length hh) (by omega)

/-- Claim C7: Create on a multi-segment file path whose intermediate
directories do not exist succeeds, implicitly creating each intermediate
directory, and the target is reachable at the full path; Delete then removes
the target while the intermediates persist, and deleting the outermost
intermediate afterwards removes the remaining intermediates. -/
theorem claim7_create_intermediates_then_delete (s : Sys) (p : FPath)
    (hd : p.isDir = false) (hlen : 2 ≤ p.segs.length)
    (hanc : ∀ k ∈ ancestors p.segs, s.fs.lookup k = none) :
    (let stamp : Times := ⟨s.clock + 1, s.clock + 1, s.clock + 1⟩
     let c := (File.init.SetFile p).Create { write := true } s
     let d := c.2.1.Delete c.2.2
     let r := (File.init.SetFile ⟨p.segs.take 1, true⟩).Delete d.2.2
     c.1 = true ∧
     c.2.2.fs.lookup p.segs = some ⟨.file [], stamp⟩ ∧
     (∀ k ∈ ancestors p.segs, c.2.2.fs.lookup k = some ⟨.dir, stamp⟩) ∧
     d.1 = true ∧ d.2.2.fs.lookup p.segs = none ∧
     (∀ k ∈ ancestors p.segs, d.2.2.fs.lookup k = some ⟨.dir, stamp⟩) ∧
     r.1 = true ∧
     (∀ k ∈ ancestors p.segs, r.2.2.fs.lookup k = none)) := by
  have hne : p.segs ≠ [] := by
    intro h
    rw [h] at hlen
    exact absurd hlen (by simp)
  simp only [File.Create, File.SetFile, File.init, hd, hne, if_false, ite_true,
    ite_false, if_true, Bool.false_eq_true]
  set t1 : Times := ⟨s.clock + 1, s.clock + 1, s.clock + 1⟩ with ht1
  set fs1 : FS := (ancestors p.segs).foldl (fun a k => addDirIfAbsent a k t1) s.fs
    with hfs1d
  have htgt : (fs1.insertEntry p.segs ⟨.file [], t1⟩).lookup p.segs
      = some ⟨.file [], t1⟩ := by
    rw [FS.lookup_insertEntry, if_pos rfl]
  have hanc1 : ∀ k ∈ ancestors p.segs,
      (fs1.insertEntry p.segs ⟨.file [], t1⟩).lookup k = some ⟨.dir, t1⟩ := by
    intro k hk
    have hlt := length_of_mem_ancestors hk
    rw [FS.lookup_insertEntry, if_neg (by intro hh; rw [hh] at hlt; omega)]
    rw [hfs1d]
    exact lookup_foldl_addDir_of_mem _ _ _ _ hk (ancestors_nodup _) (hanc k hk)
  have hswtake : startsWith p.segs (p.segs.take 1) = false :=
    startsWith_eq_false_of_lt (by rw [List.length_take]; omega)
  have htakemem : p.segs.take 1 ∈ ancestors p.segs :=
    mem_ancestors.mpr ⟨0, by omega, rfl⟩
  refine ⟨trivial, htgt, hanc1, ?_, ?_, ?_, ?_, ?_⟩
  · simp [File.Delete, File.Close, htgt]
  · simp [File.Delete, File.Close, htgt, FS.lookup_removeSubtree, startsWith_refl]
  · intro k hk
    simp [File.Delete, File.Close, htgt, FS.lookup_removeSubtree,
      startsWith_eq_false_of_lt (length_of_mem_ancestors hk), hanc1 k hk]
  · simp [File.Delete, File.Close, htgt, FS.lookup_removeSubtree, hswtake,
      hanc1 _ htakemem]
  · intro k hk
    obtain ⟨i, hi, hkeq⟩ := mem_ancestors.mp hk
    have hrt : ((fs1.insertEntry p.segs ⟨.file [], t1⟩).removeSubtree p.segs).lookup
        (p.segs.take 1) = some ⟨.dir, t1⟩ := by
      rw [FS.lookup_removeSubtree, if_neg (by simp [hswtake]), hanc1 _ htakemem]
    simp only [File.Delete, File.Close, File.SetFile, File.init, htgt, hrt]
    rw [FS.lookup_removeSubtree,
      if_pos (by rw [← hkeq]; exact startsWith_take _ (by omega))]

/-- Witness for claim C4: creating and reopening the directory `d/` on an
empty filesystem. -/
theorem claim4_witness :
    (let c := (File.init.SetFile ⟨["d"], true⟩).Create { read := true, write := true } ⟨[], 0⟩
     let o := c.2.1.Close.Open { read := true } c.2.2
     c.1 = true ∧ c.2.1.IsOpen = true ∧
     c.2.2.fs.lookup ["d"] = some ⟨.dir, ⟨0 + 1, 0 + 1, 0 + 1⟩⟩ ∧
     (∀ kv ∈ c.2.2.fs, startsWith ["d"] kv.1 = true → kv.1 = ["d"]) ∧
     o.1 = true ∧ o.2.1.IsOpen = true ∧ o.2.1.GetLength o.2.2 = 0) :=
  claim4_directory_create_and_open ⟨[], 0⟩ ⟨["d"], true⟩ rfl (by decide) (by simp)

/-- Witness for claim C7: the three-segment path `a/b/c` on an empty
filesystem. -/
theorem claim7_witness :
    (let stamp : Times := ⟨0 + 1, 0 + 1, 0 + 1⟩
     let c := (File.init.SetFile ⟨["a", "b", "c"], false⟩).Create { write := true } ⟨[], 0⟩
     let d := c.2.1.Delete c.2.2
     let r := (File.init.SetFile ⟨["a", "b", "c"].take 1, true⟩).Delete d.2.2
     c.1 = true ∧
     c.2.2.fs.lookup ["a", "b", "c"] = some ⟨.file [], stamp⟩ ∧
     (∀ k ∈ ancestors ["a", "b", "c"], c.2.2.fs.lookup k = some ⟨.dir, stamp⟩) ∧
     d.1 = true ∧ d.2.2.fs.lookup ["a", "b", "c"] = none ∧
     (∀ k ∈ ancestors ["a", "b", "c"], d.2.2.fs.lookup k = some ⟨.dir, stamp⟩) ∧
     r.1 = true ∧
     (∀ k ∈ ancestors ["a", "b", "c"], r.2.2.fs.lookup k = none)) :=
  claim7_create_intermediates_then_delete ⟨[], 0⟩ ⟨["a", "b", "c"], false⟩ rfl
    (by decide) (by decide)

end FileModel
